import Mathlib

/-!
Shallow embedding of `src/Invent.py`, a single-file inventory manager:
products in an insertion-ordered id-keyed store, transaction logging,
CSV save/load and statistical reports.  Python's `dict` is modelled as an
association list in insertion order (updates keep position, fresh keys
append), Python's `int` as `ℤ`, and `float` prices as `ℚ` (a Python float
is the exact rational it represents; serialization is a decimal rendering
of that exact value).  The `csv` module's quoting layer is external and
lossless, so a CSV file is modelled as its list of rows of field strings.
-/

namespace Invent

/-- One decimal digit rendered as a character, as Python's `str` renders digits. -/
def digitChar : ℕ → Char
  | 0 => '0' | 1 => '1' | 2 => '2' | 3 => '3' | 4 => '4'
  | 5 => '5' | 6 => '6' | 7 => '7' | 8 => '8' | _ => '9'

/-- The numeric value of a decimal digit character. -/
def charVal (c : Char) : ℕ := c.toNat - 48

/-- Whether a character is a decimal digit `'0'..'9'`. -/
def isDigitChar (c : Char) : Bool := 48 ≤ c.toNat && c.toNat ≤ 57

/-- Decimal rendering of a natural number, as Python's `str` on a non-negative
`int`: canonical digits, no sign, `"0"` for zero. -/
def natSerialize (n : ℕ) : List Char :=
  if n = 0 then ['0'] else ((Nat.digits 10 n).map digitChar).reverse

/-- Parse a nonempty all-digits character list, as Python's `int` accepts a
canonical unsigned decimal string (anything else raises `ValueError`). -/
def parseNat (cs : List Char) : Option ℕ :=
  if !cs.isEmpty && cs.all isDigitChar then
    some (Nat.ofDigits 10 ((cs.map charVal).reverse))
  else none

lemma charVal_digitChar {d : ℕ} (h : d < 10) : charVal (digitChar d) = d := by
  interval_cases d <;> rfl

lemma isDigitChar_digitChar {d : ℕ} (h : d < 10) : isDigitChar (digitChar d) = true := by
  interval_cases d <;> rfl

lemma natSerialize_ne_nil (n : ℕ) : natSerialize n ≠ [] := by
  unfold natSerialize
  split
  · simp
  · simp [Nat.digits_ne_nil_iff_ne_zero, *]

lemma natSerialize_all_digits (n : ℕ) : (natSerialize n).all isDigitChar = true := by
  unfold natSerialize
  split
  · rfl
  · rw [List.all_eq_true]
    intro c hc
    rw [List.mem_reverse, List.mem_map] at hc
    obtain ⟨d, hd, rfl⟩ := hc
    exact isDigitChar_digitChar (Nat.digits_lt_base (by norm_num) hd)

lemma parseNat_natSerialize (n : ℕ) : parseNat (natSerialize n) = some n := by
  unfold parseNat
  rw [if_pos]
  · congr 1
    by_cases h : n = 0
    · subst h; rfl
    · unfold natSerialize
      rw [if_neg h, List.map_reverse, List.reverse_reverse, List.map_map]
      have h1 : ∀ d ∈ Nat.digits 10 n, (charVal ∘ digitChar) d = id d := by
        intro d hd
        exact charVal_digitChar (Nat.digits_lt_base (by norm_num) hd)
      rw [List.map_congr_left h1, List.map_id, Nat.ofDigits_digits]
  · simp [natSerialize_ne_nil, natSerialize_all_digits, List.isEmpty_iff]

/-- Decimal rendering of an integer, as Python's `str` on an `int`:
a leading `'-'` for negatives, canonical digits otherwise. -/
def intSerialize (i : ℤ) : String :=
  if i < 0 then String.mk ('-' :: natSerialize i.natAbs)
  else String.mk (natSerialize i.natAbs)

/-- Parse a decimal integer string, as Python's `int(...)` on a canonical
string: optional leading `'-'`, then nonempty digits; otherwise `ValueError`
(`none`). -/
def parseInt (s : String) : Option ℤ :=
  match s.data with
  | [] => none
  | c :: rest =>
      if c = '-' then (parseNat rest).map (fun n => -(n : ℤ))
      else (parseNat (c :: rest)).map (fun n => (n : ℤ))

lemma mem_natSerialize_ne_dash {n : ℕ} {c : Char} (hc : c ∈ natSerialize n) : c ≠ '-' := by
  have h := natSerialize_all_digits n
  rw [List.all_eq_true] at h
  have hdig := h c hc
  intro hEq
  subst hEq
  simp [isDigitChar] at hdig

lemma parseInt_mk_cons (c : Char) (rest : List Char) :
    parseInt (String.mk (c :: rest)) =
      if c = '-' then (parseNat rest).map (fun n => -(n : ℤ))
      else (parseNat (c :: rest)).map (fun n => (n : ℤ)) := rfl

lemma parseInt_intSerialize (i : ℤ) : parseInt (intSerialize i) = some i := by
  unfold intSerialize
  by_cases h : i < 0
  · rw [if_pos h, parseInt_mk_cons, if_pos rfl, parseNat_natSerialize]
    exact congrArg some (by omega : -((i.natAbs : ℕ) : ℤ) = i)
  · rw [if_neg h]
    cases hcs : natSerialize i.natAbs with
    | nil => exact absurd hcs (natSerialize_ne_nil _)
    | cons c rest =>
      have hcne : c ≠ '-' :=
        mem_natSerialize_ne_dash (by rw [hcs]; exact List.mem_cons_self c rest)
      rw [parseInt_mk_cons, if_neg hcne, ← hcs, parseNat_natSerialize]
      exact congrArg some (by omega : ((i.natAbs : ℕ) : ℤ) = i)

/-- Rendering of the fractional part: `k`-digit zero-padded big-endian decimal rendering of `fp < 10 ^ k`
(the fractional digits written after the decimal point). -/
def fracSerialize (k fp : ℕ) : List Char :=
  ((Nat.digits 10 fp ++ List.replicate (k - (Nat.digits 10 fp).length) 0).reverse).map digitChar

/-- Decimal rendering of a rational price, modelling Python's `str` on a
`float`: the float's exact value printed positionally with one decimal
point (`str` prints the shortest decimal that round-trips through `float`;
any exact positional decimal rendering parses back to the same value, which
is all the round-trip contract depends on).  `q.den` fractional digits are
used, which is enough whenever the denominator divides a power of 10 —
always the case for the exact value of a float. -/
def priceSerialize (q : ℚ) : String :=
  String.mk ((if q.num < 0 then ['-'] else []) ++
    natSerialize ((q.num * ((10 ^ q.den / q.den : ℕ) : ℤ)).natAbs / 10 ^ q.den) ++
    '.' :: fracSerialize q.den ((q.num * ((10 ^ q.den / q.den : ℕ) : ℤ)).natAbs % 10 ^ q.den))

/-- Parse an unsigned positional decimal, as Python's `float` accepts
`"12"`, `"12.5"`, `"12."` or `".5"` (exponent and special forms are outside
the model): digits with at most one decimal point and at least one digit. -/
def parsePosDec (cs : List Char) : Option ℚ :=
  let ip := cs.takeWhile (fun c => decide (c ≠ '.'))
  match cs.dropWhile (fun c => decide (c ≠ '.')) with
  | [] => (parseNat cs).map (fun n => (n : ℚ))
  | _ :: fp =>
      if (!ip.isEmpty || !fp.isEmpty) && ip.all isDigitChar && fp.all isDigitChar then
        some (((Nat.ofDigits 10 ((ip.map charVal).reverse) : ℕ) : ℚ) +
          ((Nat.ofDigits 10 ((fp.map charVal).reverse) : ℕ) : ℚ) / 10 ^ fp.length)
      else none

/-- Parse a signed decimal string, as Python's `float(...)`: optional
leading `'-'`, then an unsigned positional decimal; otherwise `ValueError`
(`none`). -/
def parseFloat (s : String) : Option ℚ :=
  match s.data with
  | [] => none
  | c :: rest =>
      if c = '-' then (parsePosDec rest).map (fun q => -q)
      else parsePosDec (c :: rest)

/-- A price is the exact value of some Python float, hence a rational whose
reduced denominator divides a power of ten (floats are dyadic rationals). -/
def DecRepresentable (q : ℚ) : Prop := ∃ a b : ℕ, (q.den : ℕ) = 2 ^ a * 5 ^ b

lemma digits_length_le {n k : ℕ} (h : n < 10 ^ k) : (Nat.digits 10 n).length ≤ k := by
  induction k generalizing n with
  | zero =>
    interval_cases n
    simp
  | succ k ih =>
    by_cases hn : n = 0
    · simp [hn]
    · rw [Nat.digits_def' (by norm_num : (1:ℕ) < 10) (Nat.pos_of_ne_zero hn)]
      have hlt : n / 10 < 10 ^ k := by
        apply Nat.div_lt_of_lt_mul
        exact lt_of_lt_of_eq h (by ring)
      simpa using Nat.succ_le_succ (ih hlt)

lemma ofDigits_replicate_zero (b j : ℕ) : Nat.ofDigits b (List.replicate j 0) = 0 := by
  induction j with
  | zero => rfl
  | succ j ih => simp [List.replicate_succ, Nat.ofDigits_cons, ih]

lemma fracSerialize_length {k fp : ℕ} (h : fp < 10 ^ k) : (fracSerialize k fp).length = k := by
  have := digits_length_le h
  simp only [fracSerialize, List.length_map, List.length_reverse, List.length_append,
    List.length_replicate]
  omega

lemma fracSerialize_all_digits (k fp : ℕ) : (fracSerialize k fp).all isDigitChar = true := by
  rw [List.all_eq_true]
  intro c hc
  simp only [fracSerialize, List.mem_map, List.mem_reverse, List.mem_append,
    List.mem_replicate] at hc
  obtain ⟨d, hd, rfl⟩ := hc
  rcases hd with hd | hd
  · exact isDigitChar_digitChar (Nat.digits_lt_base (by norm_num) hd)
  · rw [hd.2]
    rfl

lemma fracSerialize_val (k fp : ℕ) :
    Nat.ofDigits 10 (((fracSerialize k fp).map charVal).reverse) = fp := by
  set ds := Nat.digits 10 fp ++ List.replicate (k - (Nat.digits 10 fp).length) 0 with hds
  have hall : ∀ d ∈ ds, d < 10 := by
    intro d hd
    rw [hds, List.mem_append] at hd
    rcases hd with hd | hd
    · exact Nat.digits_lt_base (by norm_num) hd
    · rw [(List.mem_replicate.mp hd).2]
      norm_num
  have hmap : (ds.reverse.map digitChar).map charVal = ds.reverse := by
    rw [List.map_map]
    have h1 : ∀ d ∈ ds.reverse, (charVal ∘ digitChar) d = id d := by
      intro d hd
      exact charVal_digitChar (hall d (List.mem_reverse.mp hd))
    rw [List.map_congr_left h1, List.map_id]
  rw [fracSerialize, ← hds, hmap, List.reverse_reverse, hds, Nat.ofDigits_append,
    ofDigits_replicate_zero, Nat.ofDigits_digits]
  ring

lemma natSerialize_val (n : ℕ) :
    Nat.ofDigits 10 (((natSerialize n).map charVal).reverse) = n := by
  by_cases h : n = 0
  · subst h
    rfl
  · unfold natSerialize
    rw [if_neg h, List.map_reverse, List.reverse_reverse, List.map_map]
    have h1 : ∀ d ∈ Nat.digits 10 n, (charVal ∘ digitChar) d = id d := by
      intro d hd
      exact charVal_digitChar (Nat.digits_lt_base (by norm_num) hd)
    rw [List.map_congr_left h1, List.map_id, Nat.ofDigits_digits]

lemma takeWhile_append_cons {p : Char → Bool} {l : List Char} (hl : ∀ x ∈ l, p x = true)
    {c : Char} (hc : p c = false) (r : List Char) :
    (l ++ c :: r).takeWhile p = l ∧ (l ++ c :: r).dropWhile p = c :: r := by
  induction l with
  | nil => simp [List.takeWhile_cons, List.dropWhile_cons, hc]
  | cons a l ih =>
    have ha : p a = true := hl a (by simp)
    have ih2 := ih (fun x hx => hl x (by simp [hx]))
    simp [List.takeWhile_cons, List.dropWhile_cons, ha, ih2.1, ih2.2]

lemma isDigitChar_ne_dot {c : Char} (h : isDigitChar c = true) :
    (decide (c ≠ '.')) = true := by
  simp only [ne_eq, decide_not, Bool.not_eq_true', decide_eq_false_iff_not]
  intro hEq
  subst hEq
  simp [isDigitChar] at h

lemma parsePosDec_split {ip fp : List Char} (hip : ∀ x ∈ ip, (decide (x ≠ '.')) = true) :
    parsePosDec (ip ++ '.' :: fp) =
      if (!ip.isEmpty || !fp.isEmpty) && ip.all isDigitChar && fp.all isDigitChar then
        some (((Nat.ofDigits 10 ((ip.map charVal).reverse) : ℕ) : ℚ) +
          ((Nat.ofDigits 10 ((fp.map charVal).reverse) : ℕ) : ℚ) / 10 ^ fp.length)
      else none := by
  have hdot : (decide (('.' : Char) ≠ '.')) = false := by decide
  have hsplit := takeWhile_append_cons hip hdot fp
  unfold parsePosDec
  rw [hsplit.1, hsplit.2]

/-- Parsing the unsigned rendering `⌊N/10^k⌋ . (N mod 10^k padded to k digits)`
recovers exactly `N / 10^k` as a rational. -/
lemma parsePosDec_serialized (N k : ℕ) :
    parsePosDec (natSerialize (N / 10 ^ k) ++ '.' :: fracSerialize k (N % 10 ^ k)) =
      some ((N : ℚ) / 10 ^ k) := by
  have hpow : 0 < (10:ℕ) ^ k := Nat.pos_pow_of_pos k (by norm_num)
  have hF : N % 10 ^ k < 10 ^ k := Nat.mod_lt _ hpow
  have hip : ∀ x ∈ natSerialize (N / 10 ^ k), (decide (x ≠ '.')) = true := by
    intro x hx
    have hall := natSerialize_all_digits (N / 10 ^ k)
    rw [List.all_eq_true] at hall
    exact isDigitChar_ne_dot (hall x hx)
  rw [parsePosDec_split hip]
  have h1 : (natSerialize (N / 10 ^ k)).isEmpty = false := by
    cases hcs : natSerialize (N / 10 ^ k) with
    | nil => exact absurd hcs (natSerialize_ne_nil _)
    | cons a l => rfl
  rw [if_pos (by rw [h1, natSerialize_all_digits, fracSerialize_all_digits]; rfl)]
  rw [natSerialize_val, fracSerialize_val, fracSerialize_length hF]
  congr 1
  have hdm := Nat.div_add_mod N (10 ^ k)
  have h10 : ((10:ℚ)) ^ k ≠ 0 := by positivity
  rw [eq_div_iff h10, add_mul, div_mul_cancel₀ _ h10]
  have h2 : (N / 10 ^ k) * 10 ^ k + N % 10 ^ k = N := by
    rw [mul_comm]
    exact hdm
  exact_mod_cast h2

lemma parseFloat_mk_cons (c : Char) (rest : List Char) :
    parseFloat (String.mk (c :: rest)) =
      if c = '-' then (parsePosDec rest).map (fun q => -q) else parsePosDec (c :: rest) := rfl

lemma den_dvd_pow10 {q : ℚ} (hq : DecRepresentable q) : q.den ∣ 10 ^ q.den := by
  obtain ⟨a, b, hden⟩ := hq
  have h5 : (0:ℕ) < 5 ^ b := pow_pos (by norm_num) b
  have h2 : (0:ℕ) < 2 ^ a := pow_pos (by norm_num) a
  have ha : a ≤ q.den := by
    have h1 : 2 ^ a ≤ q.den := by
      rw [hden]
      exact Nat.le_mul_of_pos_right _ h5
    have h2a : a < 2 ^ a := Nat.lt_two_pow a
    omega
  have hb : b ≤ q.den := by
    have h1 : 5 ^ b ≤ q.den := by
      rw [hden]
      exact Nat.le_mul_of_pos_left _ h2
    have h2b : b < 5 ^ b := Nat.lt_pow_self (by norm_num) b
    omega
  have key : (2:ℕ) ^ a * 5 ^ b ∣ 10 ^ q.den := by
    rw [show (10:ℕ) ^ q.den = 2 ^ q.den * 5 ^ q.den by rw [← Nat.mul_pow]]
    exact mul_dvd_mul (pow_dvd_pow 2 ha) (pow_dvd_pow 5 hb)
  conv_lhs => rw [hden]
  exact key

/-- Round trip of the price field: parsing the decimal rendering of a
decimal-representable rational recovers it exactly. -/
lemma parseFloat_priceSerialize {q : ℚ} (hq : DecRepresentable q) :
    parseFloat (priceSerialize q) = some q := by
  have hdvd := den_dvd_pow10 hq
  have hden0 : 0 < q.den := q.pos
  have hpow : 0 < (10:ℕ) ^ q.den := Nat.pos_pow_of_pos _ (by norm_num)
  have hD0 : 0 < 10 ^ q.den / q.den := Nat.div_pos (Nat.le_of_dvd hpow hdvd) hden0
  have hDmul : q.den * (10 ^ q.den / q.den) = 10 ^ q.den := Nat.mul_div_cancel' hdvd
  have hN : (q.num * ((10 ^ q.den / q.den : ℕ) : ℤ)).natAbs =
      q.num.natAbs * (10 ^ q.den / q.den) := by
    rw [Int.natAbs_mul, Int.natAbs_ofNat]
  have hD0Q : ((10 ^ q.den / q.den : ℕ) : ℚ) ≠ 0 := by
    exact_mod_cast hD0.ne'
  have hdenQ : ((q.den : ℕ) : ℚ) ≠ 0 := by
    exact_mod_cast hden0.ne'
  have h10Q : ((10:ℚ)) ^ q.den = ((q.den : ℕ) : ℚ) * ((10 ^ q.den / q.den : ℕ) : ℚ) := by
    rw [← Nat.cast_mul, hDmul]
    push_cast
    ring
  have hval : (((q.num * ((10 ^ q.den / q.den : ℕ) : ℤ)).natAbs : ℚ)) / 10 ^ q.den =
      ((q.num.natAbs : ℚ)) / (q.den : ℚ) := by
    rw [hN, Nat.cast_mul, h10Q, div_eq_div_iff (mul_ne_zero hdenQ hD0Q) hdenQ]
    ring
  by_cases hneg : q.num < 0
  · rw [priceSerialize, if_pos hneg, List.singleton_append, List.cons_append,
      parseFloat_mk_cons, if_pos rfl, parsePosDec_serialized]
    rw [Option.map_some']
    congr 1
    rw [hval]
    have habs : ((q.num.natAbs : ℚ)) = -((q.num : ℚ)) := by
      rw [Int.cast_natAbs, abs_of_neg hneg]
      push_cast
      ring
    rw [habs, neg_div, neg_neg, Rat.num_div_den]
  · rw [priceSerialize, if_neg hneg, List.nil_append]
    cases hcs : natSerialize ((q.num * ((10 ^ q.den / q.den : ℕ) : ℤ)).natAbs / 10 ^ q.den) with
    | nil => exact absurd hcs (natSerialize_ne_nil _)
    | cons c rest =>
      have hcne : c ≠ '-' :=
        mem_natSerialize_ne_dash (by rw [hcs]; exact List.mem_cons_self c rest)
      rw [List.cons_append, parseFloat_mk_cons, if_neg hcne, ← List.cons_append, ← hcs,
        parsePosDec_serialized]
      congr 1
      rw [hval]
      have habs : ((q.num.natAbs : ℚ)) = ((q.num : ℚ)) := by
        rw [Int.cast_natAbs, abs_of_nonneg (not_lt.mp hneg)]
      rw [habs, Rat.num_div_den]

/-- ASCII lowering of one character, the fragment of Python's `str.lower`
the program exercises. -/
def lowerChar (c : Char) : Char :=
  if 65 ≤ c.toNat ∧ c.toNat ≤ 90 then Char.ofNat (c.toNat + 32) else c

/-- Lowering of a string, `str.lower()` (ASCII fragment). -/
def strLower (s : String) : String := String.mk (s.data.map lowerChar)

/-- Python's substring test `needle in haystack` on character lists:
true iff `needle` occurs contiguously in `haystack` (the empty needle
always matches). -/
def listContains (haystack needle : List Char) : Bool :=
  match haystack with
  | [] => needle.isEmpty
  | _ :: t => needle.isPrefixOf haystack || listContains t needle

/-- Substring test `needle in haystack` on strings. -/
def strContains (haystack needle : String) : Bool :=
  listContains haystack.data needle.data

/-- Embedding of `class Product` (`src/Invent.py:8-21`): the six constructor fields.
Python `int` fields are `ℤ`; `price` is a `float`, modelled as the exact
rational value the float denotes. -/
structure Product where
  product_id : ℤ
  name : String
  category : String
  price : ℚ
  quantity : ℤ
  reorder_level : ℤ
deriving DecidableEq

/-- Embedding of `Product.update_quantity`: `self.quantity += amount`. -/
def Product.update_quantity (p : Product) (amount : ℤ) : Product :=
  { p with quantity := p.quantity + amount }

/-- Embedding of `Product.is_low_stock`: `self.quantity <= self.reorder_level`. -/
def Product.is_low_stock (p : Product) : Bool :=
  decide (p.quantity ≤ p.reorder_level)

/-- Embedding of `class Inventory` (`src/Invent.py:27-58`): `self.products` is a Python
`dict` keyed by `product_id`, modelled as its insertion-ordered entry
list (updates keep an existing key's position, fresh keys append). -/
structure Inventory where
  products : List Product
deriving DecidableEq

/-- The low-stock alert `check_low_stock` prints when the product is low:
`⚠️ LOW STOCK ALERT: {name} ({quantity} left)`. -/
def lowStockAlert (p : Product) : String :=
  "⚠️ LOW STOCK ALERT: " ++ p.name ++ " (" ++ intSerialize p.quantity ++ " left)"

/-- Embedding of `Inventory.check_low_stock`: prints the alert iff the product is
low-stock; modelled as the list of lines printed. -/
def check_low_stock (p : Product) : List String :=
  if p.is_low_stock then [lowStockAlert p] else []

/-- Embedding of `Inventory.add_product`: `self.products[product.product_id] = product`
(dict write: overwrite in place if the key exists, else append). The
`check_low_stock` call only prints, so the store transition is pure. -/
def Inventory.add_product (inv : Inventory) (p : Product) : Inventory :=
  if inv.products.any (fun r => decide (r.product_id = p.product_id)) then
    ⟨inv.products.map (fun r => if r.product_id = p.product_id then p else r)⟩
  else ⟨inv.products ++ [p]⟩

/-- Embedding of `Inventory.remove_product`: `self.products.pop(product_id, None)` —
delete if present, silently do nothing otherwise. -/
def Inventory.remove_product (inv : Inventory) (product_id : ℤ) : Inventory :=
  ⟨inv.products.filter (fun r => decide (r.product_id ≠ product_id))⟩

/-- Embedding of `Inventory.get_product`: `self.products.get(product_id)` — the entry
or `None`. -/
def Inventory.get_product (inv : Inventory) (product_id : ℤ) : Option Product :=
  inv.products.find? (fun r => decide (r.product_id = product_id))

/-- Embedding of `Inventory.search_by_name`: products whose lowered name contains the
lowered query as a substring, in store order. -/
def Inventory.search_by_name (inv : Inventory) (name : String) : List Product :=
  inv.products.filter (fun p => strContains (strLower p.name) (strLower name))

/-- Embedding of `Inventory.search_by_category`: products whose lowered category equals
the lowered query exactly, in store order. -/
def Inventory.search_by_category (inv : Inventory) (category : String) : List Product :=
  inv.products.filter (fun p => decide (strLower p.category = strLower category))

/-- Embedding of `class Transaction` (`src/Invent.py:100-106`). The `date` field
(wall-clock capture at creation) is outside the model. -/
structure Transaction where
  transaction_id : ℕ
  product_id : ℤ
  quantity : ℤ
  transaction_type : String
deriving DecidableEq

/-- The menu's classification of a quantity delta (`src/Invent.py:222`):
`ttype = "IN" if qty > 0 else "OUT"`. -/
def ttype_of (qty : ℤ) : String := if qty > 0 then "IN" else "OUT"

/-- Menu choice 6 (`src/Invent.py:216-224`), the `adjustQuantity` shell
operation: look the product up; if present, mutate its quantity in place,
append a transaction numbered `len(transactions) + 1` with kind from the
sign of the delta, and run the low-stock check; if absent, nothing at all
happens.  Returns the new store, the new log and the lines printed. -/
def adjustQuantity (inv : Inventory) (log : List Transaction) (pid qty : ℤ) :
    Inventory × List Transaction × List String :=
  match inv.get_product pid with
  | none => (inv, log, [])
  | some p =>
      let p2 := p.update_quantity qty
      (⟨inv.products.map (fun r => if r.product_id = pid then p2 else r)⟩,
       log ++ [⟨log.length + 1, pid, qty, ttype_of qty⟩],
       check_low_stock p2)

/-- The header row `save_inventory` writes (`src/Invent.py:69-72`). -/
def headerRow : List String :=
  ["product_id", "name", "category", "price", "quantity", "reorder_level"]

/-- One data row of the CSV: the six fields of a product, numerics in
their decimal text form (`src/Invent.py:74-77`). -/
def productRow (p : Product) : List String :=
  [intSerialize p.product_id, p.name, p.category,
   priceSerialize p.price, intSerialize p.quantity, intSerialize p.reorder_level]

/-- Embedding of `FileManager.save_inventory`: the CSV written for an inventory —
header row, then one row per product in store order.  The `csv` module's
quoting layer is external and lossless, so the file is its row structure. -/
def save_inventory (inv : Inventory) : List (List String) :=
  headerRow :: inv.products.map productRow

/-- Embedding of `csv.DictReader` field access `row[name]`: the row entry at the
position where `name` first occurs in the header. -/
def getCol (hdr row : List String) (name : String) : Option String :=
  row.get? (hdr.findIdx (fun h => h == name))

/-- One loop iteration of `FileManager.load_inventory` (`src/Invent.py:84-92`):
build a `Product` from a `DictReader` row, parsing `product_id`, `quantity`
and `reorder_level` with `int(...)` and `price` with `float(...)`; any
missing column or malformed numeric raises (`none`). -/
def load_row (hdr row : List String) : Option Product := do
  let spid ← getCol hdr row "product_id"
  let pid ← parseInt spid
  let name ← getCol hdr row "name"
  let cat ← getCol hdr row "category"
  let sprice ← getCol hdr row "price"
  let price ← parseFloat sprice
  let sq ← getCol hdr row "quantity"
  let qty ← parseInt sq
  let sr ← getCol hdr row "reorder_level"
  let rl ← parseInt sr
  pure ⟨pid, name, cat, price, qty, rl⟩

/-- The row loop of `load_inventory`: each parsed product is added to the
inventory under construction via the runtime `add_product` path; the first
bad row aborts the whole load with the raised error. -/
def loadRows (hdr : List String) : List (List String) → Inventory → Except String Inventory
  | [], inv => Except.ok inv
  | row :: rest, inv =>
      match load_row hdr row with
      | none => Except.error "ValueError: malformed row"
      | some p => loadRows hdr rest (inv.add_product p)

/-- Embedding of `FileManager.load_inventory` (`src/Invent.py:79-94`): build a fresh
`Inventory` from the rows after the header (an empty file yields no rows,
hence the empty inventory). -/
def load_inventory (file : List (List String)) : Except String Inventory :=
  match file with
  | [] => Except.ok ⟨[]⟩
  | hdr :: rows => loadRows hdr rows ⟨[]⟩

/-- Menu choice 9 (`src/Invent.py:233-235`):
`self.inventory = FileManager.load_inventory(...)` — the freshly built
inventory replaces the current one only when the whole load succeeded; on a
raised error the assignment never happens and the old store is untouched. -/
def menuLoad (inv : Inventory) (file : List (List String)) : Inventory :=
  match load_inventory file with
  | Except.ok inv2 => inv2
  | Except.error _ => inv

/-- Read `dict.get(k, v)` on the turnover accumulator. -/
def lookupD (d : List (ℤ × ℤ)) (k v : ℤ) : ℤ :=
  match d.find? (fun e => decide (e.1 = k)) with
  | some e => e.2
  | none => v

/-- Write `d[k] = v` on the turnover accumulator (dict write: in place if the
key exists, else append). -/
def updateD (d : List (ℤ × ℤ)) (k v : ℤ) : List (ℤ × ℤ) :=
  if d.any (fun e => decide (e.1 = k)) then
    d.map (fun e => if e.1 = k then (k, v) else e)
  else d ++ [(k, v)]

/-- The accumulation loop of `StatisticalReport.turnover_report`
(`src/Invent.py:137-139`): for each OUT transaction,
`turnover[pid] = turnover.get(pid, 0) + abs(quantity)`. -/
def turnoverFold : List Transaction → List (ℤ × ℤ) → List (ℤ × ℤ)
  | [], acc => acc
  | t :: rest, acc =>
      if t.transaction_type == "OUT" then
        turnoverFold rest (updateD acc t.product_id (lookupD acc t.product_id 0 + |t.quantity|))
      else turnoverFold rest acc

/-- Embedding of `StatisticalReport.turnover_report` (`src/Invent.py:132-142`): after
accumulating, report `turnover.get(pid, 0)` for every product currently in
the inventory, in store order; the printed pairs are returned. -/
def turnover_report (inv : Inventory) (ts : List Transaction) : List (Product × ℤ) :=
  inv.products.map (fun p => (p, lookupD (turnoverFold ts []) p.product_id 0))

/-- Embedding of `StatisticalReport.total_inventory_value` (`src/Invent.py:125-130`):
`sum(p.price * p.quantity)`. -/
def total_inventory_value (inv : Inventory) : ℚ :=
  (inv.products.map (fun p => p.price * (p.quantity : ℚ))).sum

/-- A concrete product used to instantiate concrete parts of the claims:
`Product(1, "Widget", "Hardware", 1.0, 100, 10)`. -/
def hwProduct : Product := ⟨1, "Widget", "Hardware", 1, 100, 10⟩

/-- An inventory holding just `hwProduct`. -/
def hwInventory : Inventory := ⟨[hwProduct]⟩

lemma find?_map_replace (l : List Product) (p : Product)
    (hl : l.any (fun r => decide (r.product_id = p.product_id)) = true) :
    (l.map (fun r => if r.product_id = p.product_id then p else r)).find?
      (fun r => decide (r.product_id = p.product_id)) = some p := by
  induction l with
  | nil => simp at hl
  | cons r t ih =>
    rw [List.map_cons]
    by_cases hr : r.product_id = p.product_id
    · rw [if_pos hr]
      exact List.find?_cons_of_pos _ (by simp)
    · rw [if_neg hr, List.find?_cons_of_neg _ (by simp [hr])]
      apply ih
      simpa [List.any_cons, hr] using hl

lemma find?_append_fresh (l : List Product) (p : Product)
    (hl : l.any (fun r => decide (r.product_id = p.product_id)) = false) :
    (l ++ [p]).find? (fun r => decide (r.product_id = p.product_id)) = some p := by
  induction l with
  | nil => exact List.find?_cons_of_pos _ (by simp)
  | cons r t ih =>
    rw [List.any_cons, Bool.or_eq_false_iff] at hl
    rw [List.cons_append, List.find?_cons_of_neg _ (by simp_all)]
    exact ih hl.2

/-- C6: a product `is_low_stock` iff `quantity <= reorder_level`; in
particular the boundary `quantity == reorder_level` is low stock. -/
theorem C6_low_stock_iff (p : Product) :
    (p.is_low_stock = true ↔ p.quantity ≤ p.reorder_level) ∧
    (p.quantity = p.reorder_level → p.is_low_stock = true) := by
  constructor
  · simp [Product.is_low_stock]
  · intro h
    simp [Product.is_low_stock, h]

/-- C7: `search_by_category` returns exactly the products whose category
equals the query case-insensitively and exactly; a product with category
"Hardware" is returned for query "hardware" but not for query "Hard", and
the result is empty when nothing matches. -/
theorem C7_search_by_category_exact (inv : Inventory) (c : String) :
    (∀ p : Product, p ∈ inv.search_by_category c ↔
      p ∈ inv.products ∧ strLower p.category = strLower c) ∧
    hwInventory.search_by_category "hardware" = [hwProduct] ∧
    hwInventory.search_by_category "Hard" = [] := by
  refine ⟨?_, by decide, by decide⟩
  intro p
  simp [Inventory.search_by_category, List.mem_filter]

/-- C8: after `add(p)`, `get(p.product_id)` returns `p`, whether the id was
fresh or already present (overwrite, last write wins, no error). -/
theorem C8_get_after_add (inv : Inventory) (p : Product) :
    (inv.add_product p).get_product p.product_id = some p := by
  unfold Inventory.add_product
  by_cases h : inv.products.any (fun r => decide (r.product_id = p.product_id)) = true
  · rw [if_pos h]
    exact find?_map_replace _ _ h
  · rw [if_neg h]
    exact find?_append_fresh _ _ (Bool.eq_false_iff.mpr h)

/-- C9: `remove(id)` followed by `get(id)` returns `None` for every id,
and removing an absent id is a silent no-op (the store is unchanged). -/
theorem C9_remove_then_get_absent (inv : Inventory) (pid : ℤ) :
    (inv.remove_product pid).get_product pid = none ∧
    (inv.get_product pid = none → inv.remove_product pid = inv) := by
  constructor
  · apply List.find?_eq_none.mpr
    intro a ha
    rw [Inventory.remove_product] at ha
    simp only [List.mem_filter, decide_eq_true_eq] at ha
    simp [ha.2]
  · intro h
    have hall := List.find?_eq_none.mp h
    cases inv with
    | mk l =>
      rw [Inventory.remove_product]
      congr 1
      apply List.filter_eq_self.mpr
      intro a ha
      have := hall a ha
      simpa using this

/-- C10: `search_by_name` with the empty query returns every product (the
empty substring matches every name), so the result has the store's length. -/
theorem C10_search_by_name_empty (inv : Inventory) :
    inv.search_by_name "" = inv.products ∧
    (inv.search_by_name "").length = inv.products.length := by
  have hc : ∀ p : Product, strContains (strLower p.name) (strLower "") = true := by
    intro p
    show listContains (strLower p.name).data [] = true
    cases (strLower p.name).data with
    | nil => rfl
    | cons c t => rfl
  have h1 : inv.search_by_name "" = inv.products := by
    unfold Inventory.search_by_name
    exact List.filter_eq_self.mpr (fun a _ => hc a)
  exact ⟨h1, by rw [h1]⟩

/-- C2 counterexample: the adjustment with delta exactly 0 logs a
transaction of kind OUT although the delta is not strictly negative, so
"OUT iff delta < 0" fails as stated. -/
theorem C2_counterexample :
    (adjustQuantity hwInventory [] 1 0).2.1 = [⟨1, 1, 0, "OUT"⟩] ∧ ¬((0:ℤ) < 0) := by
  constructor
  · decide
  · decide

/-- C2 amended: the transaction logged by a successful adjustment carries
`ttype_of` of the delta, and `ttype_of` is IN iff the delta is strictly
positive, OUT iff the delta is ≤ 0 (zero is classified OUT by the
source's `else` branch, not left unclassified). -/
theorem C2_kind_from_sign (inv : Inventory) (log : List Transaction) (pid qty : ℤ)
    (p : Product) (h : inv.get_product pid = some p) :
    (adjustQuantity inv log pid qty).2.1 =
      log ++ [⟨log.length + 1, pid, qty, ttype_of qty⟩] ∧
    (ttype_of qty = "IN" ↔ 0 < qty) ∧ (ttype_of qty = "OUT" ↔ qty ≤ 0) := by
  refine ⟨?_, ?_, ?_⟩
  · rw [adjustQuantity, h]
  · unfold ttype_of
    by_cases hq : qty > 0
    · rw [if_pos hq]
      exact ⟨fun _ => hq, fun _ => rfl⟩
    · rw [if_neg hq]
      exact ⟨fun hs => absurd hs (by decide), fun hs => absurd hs hq⟩
  · unfold ttype_of
    by_cases hq : qty > 0
    · rw [if_pos hq]
      exact ⟨fun hs => absurd hs.symm (by decide), fun hs => absurd hq (by omega)⟩
    · rw [if_neg hq]
      exact ⟨fun _ => by omega, fun _ => rfl⟩

/-- C2 witness: the amended classification at the concrete adjustment of
product 1 by −3. -/
theorem C2_kind_from_sign_witness :
    (adjustQuantity hwInventory [] 1 (-3)).2.1 = [⟨1, 1, -3, "OUT"⟩] ∧
    (ttype_of (-3) = "IN" ↔ (0:ℤ) < -3) ∧ (ttype_of (-3) = "OUT" ↔ (-3:ℤ) ≤ 0) := by
  have h := C2_kind_from_sign hwInventory [] 1 (-3) hwProduct (by decide)
  simpa using h

/-- C3 counterexample: adjusting the quantity of an id absent from the
store is a silent no-op — no message is printed, no transaction is logged
and nothing is mutated — so "reports a ProductNotFound failure (rather
than silently doing nothing)" fails on the code. -/
theorem C3_counterexample :
    adjustQuantity ⟨[]⟩ [] 1 5 = (⟨[]⟩, [], []) := by decide

/-- C3 amended: adjusting an absent product id leaves the store and the
log unchanged and prints nothing: no transaction is logged and no product
is mutated, but no failure is reported either. -/
theorem C3_absent_adjust_silent (inv : Inventory) (log : List Transaction) (pid qty : ℤ)
    (h : inv.get_product pid = none) :
    adjustQuantity inv log pid qty = (inv, log, []) := by
  rw [adjustQuantity, h]

/-- C3 witness: adjusting id 2, absent from the one-product store. -/
theorem C3_absent_adjust_silent_witness :
    adjustQuantity hwInventory [] 2 5 = (hwInventory, [], []) :=
  C3_absent_adjust_silent hwInventory [] 2 5 (by decide)

/-- The specification-side turnover of a product: the sum of `abs(delta)`
over exactly the OUT transactions bearing its id. -/
def outUnits (ts : List Transaction) (pid : ℤ) : ℤ :=
  ((ts.filter (fun t => t.transaction_type == "OUT" && decide (t.product_id = pid))).map
    (fun t => |t.quantity|)).sum

lemma find?_map_upd_eq (d : List (ℤ × ℤ)) (k v : ℤ)
    (hany : d.any (fun e => decide (e.1 = k)) = true) :
    (d.map (fun e => if e.1 = k then (k, v) else e)).find? (fun e => decide (e.1 = k)) =
      some (k, v) := by
  induction d with
  | nil => simp at hany
  | cons e t ih =>
    rw [List.map_cons]
    by_cases he : e.1 = k
    · rw [if_pos he]
      exact List.find?_cons_of_pos _ (by simp)
    · rw [if_neg he, List.find?_cons_of_neg _ (by simp [he])]
      apply ih
      simpa [List.any_cons, he] using hany

lemma find?_append_kv (d : List (ℤ × ℤ)) (k v : ℤ)
    (hany : d.any (fun e => decide (e.1 = k)) = false) :
    (d ++ [(k, v)]).find? (fun e => decide (e.1 = k)) = some (k, v) := by
  induction d with
  | nil => exact List.find?_cons_of_pos _ (by simp)
  | cons e t ih =>
    rw [List.any_cons, Bool.or_eq_false_iff] at hany
    rw [List.cons_append, List.find?_cons_of_neg _ (by simp_all)]
    exact ih hany.2

lemma find?_map_upd_ne (d : List (ℤ × ℤ)) (k v k' : ℤ) (h : k' ≠ k) :
    (d.map (fun e => if e.1 = k then (k, v) else e)).find? (fun e => decide (e.1 = k')) =
      d.find? (fun e => decide (e.1 = k')) := by
  induction d with
  | nil => rfl
  | cons e t ih =>
    rw [List.map_cons]
    by_cases he : e.1 = k
    · rw [if_pos he, List.find?_cons_of_neg _ (by simp [Ne.symm h]),
        List.find?_cons_of_neg _ (by simp [he, Ne.symm h])]
      exact ih
    · rw [if_neg he]
      by_cases pe : e.1 = k'
      · rw [List.find?_cons_of_pos _ (by simp [pe]), List.find?_cons_of_pos _ (by simp [pe])]
      · rw [List.find?_cons_of_neg _ (by simp [pe]), List.find?_cons_of_neg _ (by simp [pe])]
        exact ih

/-- Reading `dict.get` after `dict.__setitem__`: the written key reads back the
written value; other keys are unaffected. -/
lemma lookupD_updateD (d : List (ℤ × ℤ)) (k v k' w : ℤ) :
    lookupD (updateD d k v) k' w = if k' = k then v else lookupD d k' w := by
  by_cases hk : k' = k
  · subst hk
    rw [if_pos rfl]
    unfold updateD lookupD
    by_cases hany : d.any (fun e => decide (e.1 = k')) = true
    · rw [if_pos hany, find?_map_upd_eq d k' v hany]
    · rw [if_neg hany, find?_append_kv d k' v (Bool.eq_false_iff.mpr hany)]
  · rw [if_neg hk]
    unfold updateD lookupD
    by_cases hany : d.any (fun e => decide (e.1 = k)) = true
    · rw [if_pos hany, find?_map_upd_ne d k v k' hk]
    · rw [if_neg hany, List.find?_append]
      have hsingle : ([((k : ℤ), v)].find? (fun e => decide (e.1 = k'))) = none := by
        simp [List.find?_cons, Ne.symm hk]
      rw [hsingle, Option.or_none]

lemma outUnits_cons (t : Transaction) (rest : List Transaction) (pid : ℤ) :
    outUnits (t :: rest) pid =
      (if (t.transaction_type == "OUT") = true ∧ t.product_id = pid
        then |t.quantity| else 0) + outUnits rest pid := by
  unfold outUnits
  rw [List.filter_cons]
  by_cases hc : ((t.transaction_type == "OUT") && decide (t.product_id = pid)) = true
  · rw [if_pos hc]
    rw [Bool.and_eq_true, decide_eq_true_eq] at hc
    rw [if_pos hc]
    simp
  · rw [if_neg hc]
    rw [Bool.and_eq_true, decide_eq_true_eq] at hc
    rw [if_neg hc]
    simp

/-- The accumulation loop computes, for every key, the filtered sum of
absolute OUT deltas on top of whatever the accumulator already held. -/
lemma turnoverFold_lookup (ts : List Transaction) (acc : List (ℤ × ℤ)) (pid : ℤ) :
    lookupD (turnoverFold ts acc) pid 0 = lookupD acc pid 0 + outUnits ts pid := by
  induction ts generalizing acc with
  | nil => simp [turnoverFold, outUnits]
  | cons t rest ih =>
    rw [turnoverFold, outUnits_cons]
    by_cases hout : (t.transaction_type == "OUT") = true
    · rw [if_pos hout, ih, lookupD_updateD]
      by_cases hp : pid = t.product_id
      · rw [if_pos hp, if_pos ⟨hout, hp.symm⟩, hp]
        ring
      · rw [if_neg hp, if_neg (fun hc => hp hc.2.symm)]
        ring
    · rw [if_neg hout, ih, if_neg (fun hc => hout hc.1)]
      ring

/-- C5: `turnover_report` reports, for every product currently in the
inventory in store order, the sum of `abs(delta)` over exactly its OUT
transactions, defaulting to 0 (products no longer in the inventory are
omitted, since only current products are iterated); concretely, OUT(-5),
OUT(-3), IN(10) for product 1 reports 8 units sold. -/
theorem C5_turnover_out_sum (inv : Inventory) (ts : List Transaction) :
    turnover_report inv ts = inv.products.map (fun p => (p, outUnits ts p.product_id)) ∧
    turnover_report hwInventory
      [⟨1, 1, -5, "OUT"⟩, ⟨2, 1, -3, "OUT"⟩, ⟨3, 1, 10, "IN"⟩] = [(hwProduct, 8)] := by
  constructor
  · unfold turnover_report
    apply List.map_congr_left
    intro p hp
    have h := turnoverFold_lookup ts [] p.product_id
    rw [show lookupD [] p.product_id 0 = 0 from rfl, zero_add] at h
    rw [h]
  · decide

lemma getCol_pid (r0 r1 r2 r3 r4 r5 : String) :
    getCol headerRow [r0, r1, r2, r3, r4, r5] "product_id" = some r0 := rfl

lemma getCol_name (r0 r1 r2 r3 r4 r5 : String) :
    getCol headerRow [r0, r1, r2, r3, r4, r5] "name" = some r1 := rfl

lemma getCol_category (r0 r1 r2 r3 r4 r5 : String) :
    getCol headerRow [r0, r1, r2, r3, r4, r5] "category" = some r2 := rfl

lemma getCol_price (r0 r1 r2 r3 r4 r5 : String) :
    getCol headerRow [r0, r1, r2, r3, r4, r5] "price" = some r3 := rfl

lemma getCol_quantity (r0 r1 r2 r3 r4 r5 : String) :
    getCol headerRow [r0, r1, r2, r3, r4, r5] "quantity" = some r4 := rfl

lemma getCol_reorder (r0 r1 r2 r3 r4 r5 : String) :
    getCol headerRow [r0, r1, r2, r3, r4, r5] "reorder_level" = some r5 := rfl

/-- Parsing back an exported row recovers the product exactly, provided its
price is the exact value of a float. -/
lemma load_row_productRow (p : Product) (hp : DecRepresentable p.price) :
    load_row headerRow (productRow p) = some p := by
  simp only [load_row, productRow, getCol_pid, getCol_name, getCol_category, getCol_price,
    getCol_quantity, getCol_reorder, parseInt_intSerialize, parseFloat_priceSerialize hp,
    Option.bind_eq_bind, Option.some_bind]
  rfl

lemma loadRows_map (ps : List Product) (inv : Inventory)
    (hdec : ∀ p ∈ ps, DecRepresentable p.price) :
    loadRows headerRow (ps.map productRow) inv =
      Except.ok (ps.foldl Inventory.add_product inv) := by
  induction ps generalizing inv with
  | nil => rfl
  | cons p t ih =>
    rw [List.map_cons, loadRows, load_row_productRow p (hdec p (by simp))]
    exact ih _ (fun q hq => hdec q (by simp [hq]))

lemma foldl_add_fresh (ps : List Product) (inv : Inventory)
    (h : ((inv.products ++ ps).map Product.product_id).Nodup) :
    ps.foldl Inventory.add_product inv = ⟨inv.products ++ ps⟩ := by
  induction ps generalizing inv with
  | nil =>
    cases inv
    simp
  | cons p t ih =>
    rw [List.foldl_cons]
    have hfresh : inv.products.any (fun r => decide (r.product_id = p.product_id)) = false := by
      rw [List.map_append, List.nodup_append] at h
      have hdisj := h.2.2
      rw [List.any_eq_false]
      intro r hr
      simp only [decide_eq_true_eq]
      exact fun hEq => hdisj (List.mem_map_of_mem _ hr) (by simp [hEq])
    rw [Inventory.add_product, if_neg (by rw [hfresh]; exact Bool.false_ne_true)]
    have h2 : ((((⟨inv.products ++ [p]⟩ : Inventory)).products ++ t).map
        Product.product_id).Nodup := by
      simpa using h
    rw [ih ⟨inv.products ++ [p]⟩ h2]
    simp

/-- C1: CSV round trip — importing the file produced by exporting an
inventory rebuilds it exactly: the same product list in the same order with
all six fields equal (so in particular the product set is field-equal and
every price differs by at most 1e-9, namely by 0).  The hypotheses are the
invariants the source maintains: ids are unique (the store is a dict keyed
by id) and every price is the exact value of a Python float (a dyadic
rational, whose reduced denominator divides a power of ten). -/
theorem C1_csv_round_trip (inv : Inventory)
    (hids : (inv.products.map Product.product_id).Nodup)
    (hprices : ∀ p ∈ inv.products, DecRepresentable p.price) :
    load_inventory (save_inventory inv) = Except.ok inv := by
  rw [save_inventory, load_inventory, loadRows_map inv.products ⟨[]⟩ hprices,
    foldl_add_fresh inv.products ⟨[]⟩ (by simpa using hids)]
  cases inv
  simp

/-- The price of the witness product: the float 2.5 = 5/2. -/
def wPrice : ℚ := ⟨5, 2, by decide, by decide⟩

/-- Witness product `Product(1, "Widget", "Hardware", 2.5, 100, 10)`. -/
def wProduct : Product := ⟨1, "Widget", "Hardware", wPrice, 100, 10⟩

/-- Witness inventory for the round trip. -/
def wInventory : Inventory := ⟨[wProduct]⟩

/-- C1 witness: the round trip at the one-product inventory. -/
theorem C1_csv_round_trip_witness :
    load_inventory (save_inventory wInventory) = Except.ok wInventory :=
  C1_csv_round_trip wInventory (by decide)
    (fun p hp => by
      rw [List.mem_singleton.mp hp]
      exact ⟨1, 0, by decide⟩)

/-- A data row has a malformed numeric field: one of the four numeric
columns is present but its `int(...)` / `float(...)` parse raises. -/
def rowMalformed (hdr row : List String) : Prop :=
  (∃ s, getCol hdr row "product_id" = some s ∧ parseInt s = none) ∨
  (∃ s, getCol hdr row "price" = some s ∧ parseFloat s = none) ∨
  (∃ s, getCol hdr row "quantity" = some s ∧ parseInt s = none) ∨
  (∃ s, getCol hdr row "reorder_level" = some s ∧ parseInt s = none)

lemma load_row_none_of_malformed {hdr row : List String} (h : rowMalformed hdr row) :
    load_row hdr row = none := by
  cases h0 : getCol hdr row "product_id" with
  | none => simp [load_row, h0]
  | some spid =>
  cases h1 : parseInt spid with
  | none => simp [load_row, h0, h1]
  | some pid =>
  cases h2 : getCol hdr row "name" with
  | none => simp [load_row, h0, h1, h2]
  | some nm =>
  cases h3 : getCol hdr row "category" with
  | none => simp [load_row, h0, h1, h2, h3]
  | some ct =>
  cases h4 : getCol hdr row "price" with
  | none => simp [load_row, h0, h1, h2, h3, h4]
  | some sprice =>
  cases h5 : parseFloat sprice with
  | none => simp [load_row, h0, h1, h2, h3, h4, h5]
  | some price =>
  cases h6 : getCol hdr row "quantity" with
  | none => simp [load_row, h0, h1, h2, h3, h4, h5, h6]
  | some sq =>
  cases h7 : parseInt sq with
  | none => simp [load_row, h0, h1, h2, h3, h4, h5, h6, h7]
  | some qty =>
  cases h8 : getCol hdr row "reorder_level" with
  | none => simp [load_row, h0, h1, h2, h3, h4, h5, h6, h7, h8]
  | some sr =>
  cases h9 : parseInt sr with
  | none => simp [load_row, h0, h1, h2, h3, h4, h5, h6, h7, h8, h9]
  | some rl =>
    exfalso
    rcases h with ⟨s, hs, hbad⟩ | ⟨s, hs, hbad⟩ | ⟨s, hs, hbad⟩ | ⟨s, hs, hbad⟩
    · rw [h0] at hs
      cases hs
      rw [h1] at hbad
      cases hbad
    · rw [h4] at hs
      cases hs
      rw [h5] at hbad
      cases hbad
    · rw [h6] at hs
      cases hs
      rw [h7] at hbad
      cases hbad
    · rw [h8] at hs
      cases hs
      rw [h9] at hbad
      cases hbad

/-- C4: a malformed numeric field in any data row makes the whole import
fail with a parse error (no partial or skip-bad-row recovery), and the
menu's load step leaves the pre-existing inventory untouched, because the
freshly built inventory is only installed after a fully successful load. -/
theorem C4_malformed_aborts_import (hdr : List String) (rows : List (List String))
    (inv : Inventory) (row : List String) (hmem : row ∈ rows) (hbad : rowMalformed hdr row) :
    (∃ e, load_inventory (hdr :: rows) = Except.error e) ∧
    menuLoad inv (hdr :: rows) = inv := by
  have hrow : load_row hdr row = none := load_row_none_of_malformed hbad
  have key : ∀ (rs : List (List String)) (acc : Inventory), row ∈ rs →
      ∃ e, loadRows hdr rs acc = Except.error e := by
    intro rs
    induction rs with
    | nil =>
      intro acc hm
      simp at hm
    | cons r t ih =>
      intro acc hm
      by_cases hr : r = row
      · subst hr
        exact ⟨_, by rw [loadRows, hrow]⟩
      · have hm2 : row ∈ t := by
          rcases List.mem_cons.mp hm with hEq | hmem2
          · exact absurd hEq.symm hr
          · exact hmem2
        cases hlr : load_row hdr r with
        | none => exact ⟨_, by rw [loadRows, hlr]⟩
        | some p =>
          obtain ⟨e, he⟩ := ih (acc.add_product p) hm2
          exact ⟨e, by rw [loadRows, hlr]; exact he⟩
  obtain ⟨e, he⟩ := key rows ⟨[]⟩ hmem
  have hload : load_inventory (hdr :: rows) = Except.error e := by
    rw [load_inventory]
    exact he
  exact ⟨⟨e, hload⟩, by rw [menuLoad, hload]⟩

/-- C4 witness: a row whose price field is `"abc"` aborts the import and
the menu keeps the old one-product inventory. -/
theorem C4_malformed_aborts_import_witness :
    (∃ e, load_inventory
      (headerRow :: [["1", "Widget", "Hardware", "abc", "100", "10"]]) = Except.error e) ∧
    menuLoad hwInventory
      (headerRow :: [["1", "Widget", "Hardware", "abc", "100", "10"]]) = hwInventory :=
  C4_malformed_aborts_import headerRow [["1", "Widget", "Hardware", "abc", "100", "10"]]
    hwInventory ["1", "Widget", "Hardware", "abc", "100", "10"] (by simp)
    (Or.inr (Or.inl ⟨"abc", rfl, by decide⟩))

end Invent
